import Mathlib

/-!
Verification of the URL crawler in `scrape.py` (`_extract_urls_helper` /
`extract_urls`): a depth-bounded, domain-restricted, cycle-safe traversal
of hyperlinks reachable from a seed URL.

The external collaborators of the crawler (the URL parsing and joining
utilities and the HTTP client with its HTML anchor extraction) are
abstracted as an environment `Env` of pure functions; an HTTP fetch either
fails with an error string or yields the list of `href` attribute values
of the page's anchor elements, in document order (`none` models an anchor
without an `href` attribute).  The state `St` carries the visited set of
the traversal and a ghost log of the URLs fetched over HTTP, which makes
the side effect of the crawler observable.  Python's unbounded recursion
is embedded with an explicit fuel argument; the top-level call supplies
`max_depth.toNat` fuel, which is proved sufficient (`Err.fuelExhausted` is
unreachable), mirroring the fact that recursion depth is bounded by the
depth bound.  Exceptions of the Python code are embedded with `Except`:
an error aborts the whole computation with no partial result.
-/

namespace Scrape

/-- `leadsWith pat s` is true when the character list `pat` is an initial
segment of `s`. -/
def leadsWith : List Char → List Char → Bool
  | [], _ => true
  | _ :: _, [] => false
  | a :: as, b :: bs => a == b && leadsWith as bs

/-- `hasSubList pat s` is true when `pat` occurs as a contiguous segment of
`s`. -/
def hasSubList (pat : List Char) : List Char → Bool
  | [] => leadsWith pat []
  | c :: rest => leadsWith pat (c :: rest) || hasSubList pat rest

/-- `substrMem pat s` embeds Python's substring test `pat in s`. -/
def substrMem (pat s : String) : Bool :=
  hasSubList pat.toList s.toList

/-- `startsWithStr pat s` embeds Python's `s.startswith(pat)`. -/
def startsWithStr (pat s : String) : Bool :=
  leadsWith pat.toList s.toList

/-- Errors of a crawl: a fetch error (embedding an exception raised by the
HTTP client, carrying its message) or exhaustion of the recursion fuel of
the embedding. -/
inductive Err where
  | fuelExhausted : Err
  | fetch : String → Err
deriving Repr, DecidableEq

/-- Traversal state: the visited set (a list with membership testing,
embedding the Python `set`) and a ghost log of the URLs fetched over HTTP
in fetch order. -/
structure St where
  visited : List String
  fetched : List String
deriving Repr, DecidableEq

/-- The environment of external collaborators:
`scheme`/`netloc` embed `urlparse(u).scheme` and `urlparse(u).netloc`,
`urljoin` embeds `urllib.parse.urljoin`, and `fetch` embeds
`requests.get` followed by BeautifulSoup anchor extraction, returning the
`href` attribute values of the page's `<a>` elements in document order
(`none` for an anchor without `href`). -/
structure Env where
  scheme : String → String
  netloc : String → String
  urljoin : String → String → String
  fetch : String → Except String (List (Option String))

/-- The anchor loop of `_extract_urls_helper` (lines 25-41 of
`scrape.py`): for each anchor `href` in document order, skip a missing or
empty `href`, skip fragment links (leading `#`), resolve a non-`http`
`href` against the page URL, and, when the resolved URL has both a scheme
and a network location, process it with `process` (the recursive call at
the next depth), concatenating the contributions and threading the state;
an error from `process` aborts the whole loop. -/
def crawlList (env : Env) (process : String → St → Except Err (List String × St)) :
    List (Option String) → String → St → Except Err (List String × St)
  | [], _, st => .ok ([], st)
  | href? :: rest, pageUrl, st =>
    match href? with
    | none => crawlList env process rest pageUrl st
    | some h =>
      if h = "" then crawlList env process rest pageUrl st
      else if startsWithStr "#" h then crawlList env process rest pageUrl st
      else
        let href := if startsWithStr "http" h then h else env.urljoin pageUrl h
        if env.scheme href ≠ "" ∧ env.netloc href ≠ "" then
          match process href st with
          | .error e => .error e
          | .ok (us, st') =>
            match crawlList env process rest pageUrl st' with
            | .error e => .error e
            | .ok (us', st'') => .ok (us ++ us', st'')
        else crawlList env process rest pageUrl st

/-- Embedding of `_extract_urls_helper` (`scrape.py` lines 7-42).  The
guard of lines 11-16 returns an empty contribution when the URL is
visited, off-domain, or contains `"redirect"`; otherwise the URL is
marked visited and emitted, and while `current_depth ≤ max_depth` the
page is fetched (logged in the ghost `fetched` field) and its anchors are
traversed recursively at depth `current_depth + 1`.  The `fuel` argument
makes the recursion structural; it only decreases on a descent, so
`max_depth.toNat` fuel at the top level is sufficient. -/
def extract_urls_helper (env : Env) :
    Nat → String → St → String → Int → Int → Except Err (List String × St)
  | 0, url, st, original_url, max_depth, current_depth =>
    if url ∈ st.visited ∨ env.netloc url ≠ env.netloc original_url ∨
        substrMem "redirect" url = true then
      .ok ([], st)
    else if current_depth ≤ max_depth then
      .error .fuelExhausted
    else
      .ok ([url], ⟨url :: st.visited, st.fetched⟩)
  | fuel + 1, url, st, original_url, max_depth, current_depth =>
    if url ∈ st.visited ∨ env.netloc url ≠ env.netloc original_url ∨
        substrMem "redirect" url = true then
      .ok ([], st)
    else if current_depth ≤ max_depth then
      match env.fetch url with
      | .error e => .error (.fetch e)
      | .ok page =>
        match
          crawlList env
            (fun u s =>
              extract_urls_helper env fuel u s original_url max_depth
                (current_depth + 1))
            page url ⟨url :: st.visited, st.fetched ++ [url]⟩ with
        | .error e => .error e
        | .ok (us, st') => .ok (url :: us, st')
    else
      .ok ([url], ⟨url :: st.visited, st.fetched⟩)

/-- Embedding of `extract_urls` (`scrape.py` lines 45-49), kept together
with the final traversal state: fresh empty visited set and fetch log,
`original_url := url`, `current_depth := 1`, and `max_depth.toNat` units
of recursion fuel. -/
def extract_urls_run (env : Env) (url : String) (max_depth : Int) :
    Except Err (List String × St) :=
  extract_urls_helper env max_depth.toNat url ⟨[], []⟩ url max_depth 1

/-- Embedding of `extract_urls` (`scrape.py` lines 45-49): the ordered
list of discovered URLs, or the propagated error. -/
def extract_urls (env : Env) (url : String) (max_depth : Int) :
    Except Err (List String) :=
  match extract_urls_run env url max_depth with
  | .error e => .error e
  | .ok (us, _) => .ok us

/-- Decidable equality on `Except`, so that concrete runs of the crawler
can be checked by evaluation. -/
def exceptDecEq {α β : Type} [DecidableEq α] [DecidableEq β] :
    (a b : Except α β) → Decidable (a = b)
  | .error a, .error b =>
    match decEq a b with
    | isTrue h => isTrue (h ▸ rfl)
    | isFalse h => isFalse (fun hh => h (Except.error.inj hh))
  | .error _, .ok _ => isFalse Except.noConfusion
  | .ok _, .error _ => isFalse Except.noConfusion
  | .ok a, .ok b =>
    match decEq a b with
    | isTrue h => isTrue (h ▸ rfl)
    | isFalse h => isFalse (fun hh => h (Except.ok.inj hh))

instance {α β : Type} [DecidableEq α] [DecidableEq β] :
    DecidableEq (Except α β) :=
  exceptDecEq

/-- True exactly on the fuel-exhaustion outcome of the embedding. -/
def isFuelErr : Except Err (List String × St) → Bool
  | .error .fuelExhausted => true
  | _ => false

/-! ### Specification-side definition of the result order (for the
pre-order depth-first claim)

`spec_link_contribs` and `spec_crawl` follow the spec's words (section 3,
"Result: an ordered sequence of URL, in first-discovered (pre-order
depth-first) order", and section 4.1 steps 2.b-2.d): a processed page
contributes its own URL immediately followed by the concatenation of the
contributions of its outbound links, one contribution per anchor, kept in
the order the anchors occur in the page.  The per-link contributions are
materialised as a list of lists and joined, which makes the claimed order
explicit; the refinement theorem for the order claim states that the
code's accumulation computes exactly this. -/

/-- Per-anchor contributions, as a list of lists in anchor order; the
anchor filtering (missing/empty `href`, fragments, resolution, scheme and
network-location requirement) follows spec section 4.1 step 2.d. -/
def spec_link_contribs (env : Env)
    (process : String → St → Except Err (List String × St)) :
    List (Option String) → String → St → Except Err (List (List String) × St)
  | [], _, st => .ok ([], st)
  | href? :: rest, pageUrl, st =>
    match href? with
    | none => spec_link_contribs env process rest pageUrl st
    | some h =>
      if h = "" then spec_link_contribs env process rest pageUrl st
      else if startsWithStr "#" h then spec_link_contribs env process rest pageUrl st
      else
        let href := if startsWithStr "http" h then h else env.urljoin pageUrl h
        if env.scheme href ≠ "" ∧ env.netloc href ≠ "" then
          match process href st with
          | .error e => .error e
          | .ok (us, st') =>
            match spec_link_contribs env process rest pageUrl st' with
            | .error e => .error e
            | .ok (cs, st'') => .ok (us :: cs, st'')
        else spec_link_contribs env process rest pageUrl st

/-- The spec's pre-order traversal: a processed URL is emitted first,
immediately followed by the joined per-anchor contributions of its page,
in anchor order (spec sections 3 and 4.1). -/
def spec_crawl (env : Env) :
    Nat → String → St → String → Int → Int → Except Err (List String × St)
  | 0, url, st, original_url, max_depth, current_depth =>
    if url ∈ st.visited ∨ env.netloc url ≠ env.netloc original_url ∨
        substrMem "redirect" url = true then
      .ok ([], st)
    else if current_depth ≤ max_depth then
      .error .fuelExhausted
    else
      .ok ([url], ⟨url :: st.visited, st.fetched⟩)
  | fuel + 1, url, st, original_url, max_depth, current_depth =>
    if url ∈ st.visited ∨ env.netloc url ≠ env.netloc original_url ∨
        substrMem "redirect" url = true then
      .ok ([], st)
    else if current_depth ≤ max_depth then
      match env.fetch url with
      | .error e => .error (.fetch e)
      | .ok page =>
        match
          spec_link_contribs env
            (fun u s =>
              spec_crawl env fuel u s original_url max_depth
                (current_depth + 1))
            page url ⟨url :: st.visited, st.fetched ++ [url]⟩ with
        | .error e => .error e
        | .ok (cs, st') => .ok (url :: cs.flatten, st')
    else
      .ok ([url], ⟨url :: st.visited, st.fetched⟩)

/-- Top level of the spec-side traversal, mirroring `extract_urls`. -/
def extract_urls_spec (env : Env) (url : String) (max_depth : Int) :
    Except Err (List String) :=
  match spec_crawl env max_depth.toNat url ⟨[], []⟩ url max_depth 1 with
  | .error e => .error e
  | .ok (us, _) => .ok us

/-! ### Concrete instantiations of the external collaborators

The general theorems below quantify over every environment `Env`; the
following concrete environment is used only to evaluate the crawler on
explicit inputs (counterexamples and witnesses).  `modelScheme`,
`modelNetloc` and `modelUrljoin` are a simplified but adequate-for-these-
inputs rendering of the external `urllib.parse` utilities: the scheme is
what stands before the first colon, the network location is what stands
between `//` and the next `/`, `?` or `#`, and joining an absolute path
`/p` against a base URL yields `scheme://netloc/p`. -/

/-- Split a character list at the first colon. -/
def splitColon : List Char → Option (List Char × List Char)
  | [] => none
  | ':' :: rest => some ([], rest)
  | c :: rest => (splitColon rest).map (fun p => (c :: p.1, p.2))

/-- The network-location characters: everything up to the first `/`, `?`
or `#`. -/
def takeNetlocChars : List Char → List Char
  | [] => []
  | c :: rest => if c = '/' ∨ c = '?' ∨ c = '#' then [] else c :: takeNetlocChars rest

/-- Scheme of a URL string (empty when there is no colon). -/
def modelScheme (s : String) : String :=
  match splitColon s.toList with
  | some (sch, _) => String.mk sch
  | none => ""

/-- Network location of a URL string (empty when there is no `//`
authority part). -/
def modelNetloc (s : String) : String :=
  match splitColon s.toList with
  | some (_, '/' :: '/' :: r) => String.mk (takeNetlocChars r)
  | some _ => ""
  | none =>
    match s.toList with
    | '/' :: '/' :: r => String.mk (takeNetlocChars r)
    | _ => ""

/-- Resolution of an absolute-path reference against a base URL, enough
for the concrete pages used below. -/
def modelUrljoin (base href : String) : String :=
  if startsWithStr "/" href then
    modelScheme base ++ "://" ++ modelNetloc base ++ href
  else href

/-- A concrete site, the end-to-end scenario of spec section 8: the page
at `/a` links to `/b` (relative), `http://ex.com/c` (absolute,
same domain), `http://other.com/d` (other domain), a fragment `#top`, an
anchor without `href` and an anchor with an empty `href`; `/b` and `/c`
exist with no links; every other URL fails to fetch. -/
def demoFetch : String → Except String (List (Option String))
  | "http://ex.com/a" =>
    .ok [some "/b", some "http://ex.com/c", some "http://other.com/d",
      some "#top", none, some ""]
  | "http://ex.com/b" => .ok []
  | "http://ex.com/c" => .ok []
  | _ => .error "404"

/-- Concrete environment over `demoFetch`. -/
def envDemo : Env :=
  { scheme := modelScheme, netloc := modelNetloc, urljoin := modelUrljoin,
    fetch := demoFetch }

/-- Concrete environment whose fetch always succeeds with a page without
anchors. -/
def envOk : Env :=
  { scheme := modelScheme, netloc := modelNetloc, urljoin := modelUrljoin,
    fetch := fun _ => .ok [] }

/-- Invariant of a successful traversal step from state `st` to state
`st'` emitting `us`: the emitted URLs are distinct and new, the visited
set grows by exactly the emitted URLs, every emitted URL is on the
domain of `orig` and free of the substring `"redirect"`, and every newly
fetched URL is among the emitted ones. -/
def HelperOk (env : Env) (orig : String) (st : St) (us : List String)
    (st' : St) : Prop :=
  us.Nodup ∧
  (∀ u ∈ us, u ∉ st.visited) ∧
  (∀ u, u ∈ st'.visited ↔ u ∈ us ∨ u ∈ st.visited) ∧
  (∀ u ∈ us, env.netloc u = env.netloc orig ∧ substrMem "redirect" u = false) ∧
  (∀ u ∈ st'.fetched, u ∈ st.fetched ∨ u ∈ us)

theorem helperOk_nil (env : Env) (orig : String) (st : St) :
    HelperOk env orig st [] st := by
  refine ⟨List.nodup_nil, ?_, ?_, ?_, ?_⟩ <;> simp

theorem helperOk_append {env : Env} {orig : String} {st st₁ st₂ : St}
    {us₁ us₂ : List String}
    (h₁ : HelperOk env orig st us₁ st₁) (h₂ : HelperOk env orig st₁ us₂ st₂) :
    HelperOk env orig st (us₁ ++ us₂) st₂ := by
  obtain ⟨n₁, d₁, v₁, p₁, f₁⟩ := h₁
  obtain ⟨n₂, d₂, v₂, p₂, f₂⟩ := h₂
  refine ⟨?_, ?_, ?_, ?_, ?_⟩
  · exact n₁.append n₂ (fun a ha₁ ha₂ => d₂ a ha₂ ((v₁ a).2 (Or.inl ha₁)))
  · intro u hu
    rcases List.mem_append.mp hu with h | h
    · exact d₁ u h
    · exact fun hv => d₂ u h ((v₁ u).2 (Or.inr hv))
  · intro u
    rw [List.mem_append, v₂ u, v₁ u]
    tauto
  · intro u hu
    rcases List.mem_append.mp hu with h | h
    · exact p₁ u h
    · exact p₂ u h
  · intro u hu
    rcases f₂ u hu with h | h
    · rcases f₁ u h with h' | h'
      · exact Or.inl h'
      · exact Or.inr (List.mem_append.mpr (Or.inl h'))
    · exact Or.inr (List.mem_append.mpr (Or.inr h))

theorem helperOk_cons {env : Env} {orig url : String} {st : St}
    {us : List String} {st' : St}
    (hnv : url ∉ st.visited) (hnet : env.netloc url = env.netloc orig)
    (hred : substrMem "redirect" url = false)
    (h : HelperOk env orig ⟨url :: st.visited, st.fetched ++ [url]⟩ us st') :
    HelperOk env orig st (url :: us) st' := by
  obtain ⟨n, d, v, p, f⟩ := h
  refine ⟨?_, ?_, ?_, ?_, ?_⟩
  · exact List.nodup_cons.mpr ⟨fun hm => d url hm (List.mem_cons_self url _), n⟩
  · intro u hu
    rcases List.mem_cons.mp hu with rfl | hm
    · exact hnv
    · exact fun hv => d u hm (List.mem_cons_of_mem _ hv)
  · intro u
    rw [v u]
    simp only [List.mem_cons]
    tauto
  · intro u hu
    rcases List.mem_cons.mp hu with rfl | hm
    · exact ⟨hnet, hred⟩
    · exact p u hm
  · intro u hu
    rcases f u hu with hm | hm
    · rcases List.mem_append.mp hm with h' | h'
      · exact Or.inl h'
      · rcases List.mem_singleton.mp h' with rfl
        exact Or.inr (List.mem_cons_self _ _)
    · exact Or.inr (List.mem_cons_of_mem _ hm)

theorem helperOk_single {env : Env} {orig url : String} {st : St}
    (hnv : url ∉ st.visited) (hnet : env.netloc url = env.netloc orig)
    (hred : substrMem "redirect" url = false) :
    HelperOk env orig st [url] ⟨url :: st.visited, st.fetched⟩ := by
  refine ⟨List.nodup_singleton url, ?_, ?_, ?_, ?_⟩
  · intro u hu
    rcases List.mem_singleton.mp hu with rfl
    exact hnv
  · intro u
    simp [List.mem_cons]
  · intro u hu
    rcases List.mem_singleton.mp hu with rfl
    exact ⟨hnet, hred⟩
  · intro u hu
    exact Or.inl hu

/-- A successful run of the anchor loop satisfies the traversal invariant
whenever every successful call of `process` does. -/
theorem crawlList_ok (env : Env) (orig : String)
    (process : String → St → Except Err (List String × St))
    (H : ∀ u s us s', process u s = .ok (us, s') → HelperOk env orig s us s') :
    ∀ hrefs pageUrl st us st',
      crawlList env process hrefs pageUrl st = .ok (us, st') →
      HelperOk env orig st us st' := by
  intro hrefs
  induction hrefs with
  | nil =>
    intro pageUrl st us st' h
    simp only [crawlList, Except.ok.injEq, Prod.mk.injEq] at h
    obtain ⟨rfl, rfl⟩ := h
    exact helperOk_nil env orig st
  | cons href? rest ih =>
    intro pageUrl st us st' h
    cases href? with
    | none =>
      simp only [crawlList] at h
      exact ih pageUrl st us st' h
    | some hs =>
      simp only [crawlList] at h
      split at h
      · exact ih pageUrl st us st' h
      · split at h
        · exact ih pageUrl st us st' h
        · split at h
          · split at h
            · split at h
              · simp at h
              · rename_i us₁ st₁ hpr
                split at h
                · simp at h
                · rename_i us₂ st₂ hcl
                  simp only [Except.ok.injEq, Prod.mk.injEq] at h
                  obtain ⟨rfl, rfl⟩ := h
                  exact helperOk_append (H _ _ _ _ hpr)
                    (ih pageUrl st₁ us₂ st₂ hcl)
            · exact ih pageUrl st us st' h
          · split at h
            · split at h
              · simp at h
              · rename_i us₁ st₁ hpr
                split at h
                · simp at h
                · rename_i us₂ st₂ hcl
                  simp only [Except.ok.injEq, Prod.mk.injEq] at h
                  obtain ⟨rfl, rfl⟩ := h
                  exact helperOk_append (H _ _ _ _ hpr)
                    (ih pageUrl st₁ us₂ st₂ hcl)
            · exact ih pageUrl st us st' h

/-- A successful call of the recursive helper satisfies the traversal
invariant. -/
theorem extract_urls_helper_ok (env : Env) (orig : String) (md : Int) :
    ∀ fuel url st c us st',
      extract_urls_helper env fuel url st orig md c = .ok (us, st') →
      HelperOk env orig st us st' := by
  intro fuel
  induction fuel with
  | zero =>
    intro url st c us st' h
    simp only [extract_urls_helper] at h
    split at h
    · simp only [Except.ok.injEq, Prod.mk.injEq] at h
      obtain ⟨rfl, rfl⟩ := h
      exact helperOk_nil env orig st
    · rename_i hg
      push_neg at hg
      obtain ⟨hnv, hnet, hred⟩ := hg
      split at h
      · simp at h
      · simp only [Except.ok.injEq, Prod.mk.injEq] at h
        obtain ⟨rfl, rfl⟩ := h
        exact helperOk_single hnv hnet (Bool.not_eq_true _ ▸ hred)
  | succ f ih =>
    intro url st c us st' h
    simp only [extract_urls_helper] at h
    split at h
    · simp only [Except.ok.injEq, Prod.mk.injEq] at h
      obtain ⟨rfl, rfl⟩ := h
      exact helperOk_nil env orig st
    · rename_i hg
      push_neg at hg
      obtain ⟨hnv, hnet, hred⟩ := hg
      split at h
      · split at h
        · simp at h
        · rename_i page hf
          split at h
          · simp at h
          · rename_i us₀ stF hcl
            simp only [Except.ok.injEq, Prod.mk.injEq] at h
            obtain ⟨rfl, rfl⟩ := h
            refine helperOk_cons hnv hnet (Bool.not_eq_true _ ▸ hred) ?_
            exact crawlList_ok env orig _
              (fun u s us' s' hp => ih u s (c + 1) us' s' hp)
              page url _ us₀ stF hcl
      · simp only [Except.ok.injEq, Prod.mk.injEq] at h
        obtain ⟨rfl, rfl⟩ := h
        exact helperOk_single hnv hnet (Bool.not_eq_true _ ▸ hred)

/-- Any error outcome of the anchor loop is an error outcome of
`process`: the loop adds no error of its own and propagates errors
verbatim. -/
theorem crawlList_err (env : Env)
    (process : String → St → Except Err (List String × St)) (P : Err → Prop)
    (H : ∀ u s e, process u s = .error e → P e) :
    ∀ hrefs pageUrl st e,
      crawlList env process hrefs pageUrl st = .error e → P e := by
  intro hrefs
  induction hrefs with
  | nil =>
    intro pageUrl st e h
    simp [crawlList] at h
  | cons href? rest ih =>
    intro pageUrl st e h
    cases href? with
    | none =>
      simp only [crawlList] at h
      exact ih pageUrl st e h
    | some hs =>
      simp only [crawlList] at h
      split at h
      · exact ih pageUrl st e h
      · split at h
        · exact ih pageUrl st e h
        · split at h
          · split at h
            · split at h
              · rename_i e' hpr
                simp only [Except.error.injEq] at h
                exact h ▸ H _ _ _ hpr
              · rename_i us₁ st₁ hpr
                split at h
                · rename_i e' hcl
                  simp only [Except.error.injEq] at h
                  exact h ▸ ih pageUrl st₁ e' hcl
                · simp at h
            · exact ih pageUrl st e h
          · split at h
            · split at h
              · rename_i e' hpr
                simp only [Except.error.injEq] at h
                exact h ▸ H _ _ _ hpr
              · rename_i us₁ st₁ hpr
                split at h
                · rename_i e' hcl
                  simp only [Except.error.injEq] at h
                  exact h ▸ ih pageUrl st₁ e' hcl
                · simp at h
            · exact ih pageUrl st e h

/-- A fetch-error outcome of the recursive helper is the verbatim error
of the fetch of some same-domain, `"redirect"`-free URL. -/
theorem extract_urls_helper_err (env : Env) (orig : String) (md : Int) :
    ∀ fuel url st c e,
      extract_urls_helper env fuel url st orig md c = .error (.fetch e) →
      ∃ u, env.netloc u = env.netloc orig ∧ substrMem "redirect" u = false ∧
        env.fetch u = .error e := by
  intro fuel
  induction fuel with
  | zero =>
    intro url st c e h
    simp only [extract_urls_helper] at h
    split at h
    · simp at h
    · split at h
      · simp at h
      · simp at h
  | succ f ih =>
    intro url st c e h
    simp only [extract_urls_helper] at h
    split at h
    · simp at h
    · rename_i hg
      push_neg at hg
      obtain ⟨hnv, hnet, hred⟩ := hg
      split at h
      · split at h
        · rename_i e' hf
          simp only [Except.error.injEq, Err.fetch.injEq] at h
          exact ⟨url, hnet, Bool.not_eq_true _ ▸ hred, h ▸ hf⟩
        · rename_i page hf
          split at h
          · rename_i e' hcl
            simp only [Except.error.injEq] at h
            subst h
            exact crawlList_err env _
              (fun er => ∀ s, er = Err.fetch s →
                ∃ u, env.netloc u = env.netloc orig ∧
                  substrMem "redirect" u = false ∧ env.fetch u = .error s)
              (fun u s er hpr s' her => ih u s (c + 1) s' (her ▸ hpr))
              page url _ _ hcl e rfl
          · simp at h
      · simp at h

/-- The anchor loop never raises the fuel-exhaustion marker of its own:
it can only propagate one from `process`. -/
theorem crawlList_fuel (env : Env)
    (process : String → St → Except Err (List String × St))
    (H : ∀ u s, isFuelErr (process u s) = false) :
    ∀ hrefs pageUrl st,
      isFuelErr (crawlList env process hrefs pageUrl st) = false := by
  intro hrefs
  induction hrefs with
  | nil =>
    intro pageUrl st
    simp [crawlList, isFuelErr]
  | cons href? rest ih =>
    intro pageUrl st
    cases href? with
    | none =>
      simp only [crawlList]
      exact ih pageUrl st
    | some hs =>
      simp only [crawlList]
      split
      · exact ih pageUrl st
      · split
        · exact ih pageUrl st
        · split
          · split
            · split
              · rename_i e hpr
                have hH := H hs st
                rw [hpr] at hH
                exact hH
              · rename_i us₁ st₁ hpr
                split
                · rename_i e hcl
                  have hI := ih pageUrl st₁
                  rw [hcl] at hI
                  exact hI
                · rfl
            · exact ih pageUrl st
          · split
            · split
              · rename_i e hpr
                have hH := H (env.urljoin pageUrl hs) st
                rw [hpr] at hH
                exact hH
              · rename_i us₁ st₁ hpr
                split
                · rename_i e hcl
                  have hI := ih pageUrl st₁
                  rw [hcl] at hI
                  exact hI
                · rfl
            · exact ih pageUrl st

/-- Fuel sufficiency: with at least `max_depth + 1 - current_depth` units
of fuel the helper never exhausts its fuel — the recursion depth of the
traversal is bounded by the depth budget. -/
theorem extract_urls_helper_fuel (env : Env) (orig : String) (md : Int) :
    ∀ (fuel : Nat) (url : String) (st : St) (c : Int),
      md + 1 - c ≤ (fuel : Int) →
      isFuelErr (extract_urls_helper env fuel url st orig md c) = false := by
  intro fuel
  induction fuel with
  | zero =>
    intro url st c hfuel
    simp only [extract_urls_helper]
    split
    · rfl
    · split
      · rename_i hc
        omega
      · rfl
  | succ f ih =>
    intro url st c hfuel
    simp only [extract_urls_helper]
    split
    · rfl
    · split
      · split
        · rfl
        · rename_i page hf
          split
          · rename_i e hcl
            have hI := crawlList_fuel env _
              (fun u s => ih u s (c + 1) (by push_cast at hfuel ⊢; omega))
              page url ⟨url :: st.visited, st.fetched ++ [url]⟩
            rw [hcl] at hI
            exact hI
          · rfl
      · rfl

/-- The accumulation of the anchor loop computes exactly the flattening
of the per-anchor contribution lists, contributions kept in anchor
order. -/
theorem crawlList_eq_contribs (env : Env)
    (process : String → St → Except Err (List String × St)) :
    ∀ hrefs pageUrl st,
      crawlList env process hrefs pageUrl st =
        (spec_link_contribs env process hrefs pageUrl st).map
          (fun p => (p.1.flatten, p.2)) := by
  intro hrefs
  induction hrefs with
  | nil =>
    intro pageUrl st
    rfl
  | cons href? rest ih =>
    intro pageUrl st
    cases href? with
    | none =>
      simp only [crawlList, spec_link_contribs]
      exact ih pageUrl st
    | some hs =>
      simp only [crawlList, spec_link_contribs]
      split
      · exact ih pageUrl st
      · split
        · exact ih pageUrl st
        · split
          · split
            · cases hpr : process hs st with
              | error e => rfl
              | ok p₁ =>
                obtain ⟨us₁, st₁⟩ := p₁
                show
                  (match crawlList env process rest pageUrl st₁ with
                    | .error e => .error e
                    | .ok (us', st'') => .ok (us₁ ++ us', st'')) =
                  Except.map (fun p => (p.1.flatten, p.2))
                    (match spec_link_contribs env process rest pageUrl st₁ with
                      | .error e => .error e
                      | .ok (cs, st'') => .ok (us₁ :: cs, st''))
                rw [ih pageUrl st₁]
                cases hsp : spec_link_contribs env process rest pageUrl st₁ with
                | error e => rfl
                | ok p₂ =>
                  obtain ⟨cs, st₂⟩ := p₂
                  rfl
            · exact ih pageUrl st
          · split
            · cases hpr : process (env.urljoin pageUrl hs) st with
              | error e => rfl
              | ok p₁ =>
                obtain ⟨us₁, st₁⟩ := p₁
                show
                  (match crawlList env process rest pageUrl st₁ with
                    | .error e => .error e
                    | .ok (us', st'') => .ok (us₁ ++ us', st'')) =
                  Except.map (fun p => (p.1.flatten, p.2))
                    (match spec_link_contribs env process rest pageUrl st₁ with
                      | .error e => .error e
                      | .ok (cs, st'') => .ok (us₁ :: cs, st''))
                rw [ih pageUrl st₁]
                cases hsp : spec_link_contribs env process rest pageUrl st₁ with
                | error e => rfl
                | ok p₂ =>
                  obtain ⟨cs, st₂⟩ := p₂
                  rfl
            · exact ih pageUrl st

/-- The recursive helper computes the spec-side pre-order traversal. -/
theorem extract_urls_helper_eq_spec (env : Env) (orig : String) (md : Int) :
    ∀ (fuel : Nat) (url : String) (st : St) (c : Int),
      extract_urls_helper env fuel url st orig md c =
        spec_crawl env fuel url st orig md c := by
  intro fuel
  induction fuel with
  | zero =>
    intro url st c
    rfl
  | succ f ih =>
    intro url st c
    have hproc : (fun u s => extract_urls_helper env f u s orig md (c + 1)) =
        (fun u s => spec_crawl env f u s orig md (c + 1)) :=
      funext fun u => funext fun s => ih u s (c + 1)
    simp only [extract_urls_helper, spec_crawl]
    split
    · rfl
    · split
      · cases hf : env.fetch url with
        | error e => rfl
        | ok page =>
          show
            ((match
              crawlList env
                (fun u s => extract_urls_helper env f u s orig md (c + 1))
                page url ⟨url :: st.visited, st.fetched ++ [url]⟩ with
              | Except.error e => Except.error e
              | Except.ok (us, st') => Except.ok (url :: us, st')) :
                Except Err (List String × St)) =
            ((match
              spec_link_contribs env
                (fun u s => spec_crawl env f u s orig md (c + 1))
                page url ⟨url :: st.visited, st.fetched ++ [url]⟩ with
              | Except.error e => Except.error e
              | Except.ok (cs, st') => Except.ok (url :: cs.flatten, st')) :
                Except Err (List String × St))
          rw [hproc, crawlList_eq_contribs]
          cases hsp : spec_link_contribs env
              (fun u s => spec_crawl env f u s orig md (c + 1))
              page url ⟨url :: st.visited, st.fetched ++ [url]⟩ with
          | error e => rfl
          | ok p =>
            obtain ⟨cs, st₂⟩ := p
            rfl
      · rfl

/-- Whenever the guard of lines 11-16 lets a URL through, a successful
helper call emits that URL first. -/
theorem extract_urls_helper_head (env : Env) (orig : String) (md : Int)
    (fuel : Nat) (url : String) (st : St) (c : Int)
    (hg : ¬(url ∈ st.visited ∨ env.netloc url ≠ env.netloc orig ∨
        substrMem "redirect" url = true)) :
    ∀ us st', extract_urls_helper env fuel url st orig md c = .ok (us, st') →
      ∃ rest, us = url :: rest := by
  cases fuel with
  | zero =>
    intro us st' h
    simp only [extract_urls_helper] at h
    rw [if_neg hg] at h
    split at h
    · simp at h
    · simp only [Except.ok.injEq, Prod.mk.injEq] at h
      exact ⟨[], h.1.symm⟩
  | succ f =>
    intro us st' h
    simp only [extract_urls_helper] at h
    rw [if_neg hg] at h
    split at h
    · split at h
      · simp at h
      · rename_i page hf
        split at h
        · simp at h
        · rename_i us₀ stF hcl
          simp only [Except.ok.injEq, Prod.mk.injEq] at h
          exact ⟨us₀, h.1.symm⟩
    · simp only [Except.ok.injEq, Prod.mk.injEq] at h
      exact ⟨[], h.1.symm⟩

/-- A failing fetch of the seed aborts the whole call with exactly the
fetch's error. -/
theorem seed_fetch_error (env : Env) (url : String) (md : Int) (e : String)
    (hred : substrMem "redirect" url = false) (hmd : 1 ≤ md)
    (hf : env.fetch url = .error e) :
    extract_urls env url md = .error (.fetch e) := by
  obtain ⟨f, hfu⟩ : ∃ f, md.toNat = f + 1 := ⟨md.toNat - 1, by omega⟩
  unfold extract_urls extract_urls_run
  rw [hfu]
  simp only [extract_urls_helper]
  rw [if_neg (by simp [hred]), if_pos hmd, hf]

/-- With a non-positive depth bound the traversal stops at once: only the
seed is returned, nothing is fetched, for every environment. -/
theorem run_depth_nonpos (env : Env) (url : String) (md : Int)
    (hmd : md ≤ 0) (hred : substrMem "redirect" url = false) :
    extract_urls_run env url md = .ok ([url], ⟨[url], []⟩) := by
  unfold extract_urls_run
  have h0 : md.toNat = 0 := by omega
  rw [h0]
  simp only [extract_urls_helper]
  rw [if_neg (by simp [hred]), if_neg (by omega)]

/-! ### Claims -/

/-- Claim C1, corrected: the claim fails as stated, because the guard of
lines 11-16 also filters the seed itself: a syntactically valid seed URL
containing the substring `"redirect"` yields the empty result, which does
not start with the seed.  Amended: for every seed URL that does not
contain the substring `"redirect"`, whenever `extract_urls` returns a
list, the seed URL is its first element. -/
theorem seed_is_first_of_ok (env : Env) (url : String) (md : Int)
    (l : List String) (hred : substrMem "redirect" url = false)
    (h : extract_urls env url md = .ok l) :
    ∃ rest, l = url :: rest := by
  unfold extract_urls at h
  split at h
  · simp at h
  · rename_i us st' hrun
    simp only [Except.ok.injEq] at h
    subst h
    unfold extract_urls_run at hrun
    exact extract_urls_helper_head env url md md.toNat url ⟨[], []⟩ 1
      (by simp [hred]) us st' hrun

/-- Counterexample to claim C1 as stated: the seed
`"http://ex.com/redirect"` is syntactically valid (it has a scheme and a
network location), yet the result is the empty list, whose first element
is not the seed. -/
theorem seed_is_first_counterexample :
    (envDemo.scheme "http://ex.com/redirect" = "http" ∧
      envDemo.netloc "http://ex.com/redirect" = "ex.com") ∧
    extract_urls envDemo "http://ex.com/redirect" 1 = .ok [] ∧
    ∀ rest, ([] : List String) ≠ "http://ex.com/redirect" :: rest := by
  refine ⟨⟨by decide, by decide⟩, by decide, ?_⟩
  intro rest h
  exact List.noConfusion h

/-- Witness for the amended claim C1 on the concrete site. -/
theorem seed_is_first_witness :
    substrMem "redirect" "http://ex.com/a" = false ∧
    ∃ rest, ["http://ex.com/a", "http://ex.com/b", "http://ex.com/c"] =
      "http://ex.com/a" :: rest :=
  ⟨by decide,
    seed_is_first_of_ok envDemo "http://ex.com/a" 1
      ["http://ex.com/a", "http://ex.com/b", "http://ex.com/c"]
      (by decide) (by decide)⟩

/-- Claim C2, corrected: the claim fails as stated, because `extract_urls`
performs no validation of the seed at all — a malformed seed passes the
guard (two empty network locations compare equal) and is handed to the
HTTP fetch.  Amended: a malformed seed is processed like any other URL:
when `max_depth ≥ 1` the fetch of the seed is attempted, and the call
fails only if the fetch itself fails, with exactly the fetch's error
propagated. -/
theorem no_seed_validation (env : Env) (url : String) (md : Int) (e : String)
    (hred : substrMem "redirect" url = false) (hmd : 1 ≤ md)
    (hf : env.fetch url = .error e) :
    extract_urls env url md = .error (.fetch e) :=
  seed_fetch_error env url md e hred hmd hf

/-- Counterexample to claim C2 as stated: on the malformed seed
`"notaurl"` (no scheme, no network location) with an environment whose
fetch succeeds, `extract_urls` raises no error at all — and its ghost
fetch log shows the HTTP fetch of the malformed seed was attempted. -/
theorem no_seed_validation_counterexample :
    (envOk.scheme "notaurl" = "" ∧ envOk.netloc "notaurl" = "") ∧
    extract_urls_run envOk "notaurl" 1 =
      .ok (["notaurl"], ⟨["notaurl"], ["notaurl"]⟩) :=
  ⟨⟨by decide, by decide⟩, by decide⟩

/-- Witness for the amended claim C2: the malformed seed reaches the
fetch, whose error is propagated verbatim. -/
theorem no_seed_validation_witness :
    (envDemo.scheme "notaurl" = "" ∧ envDemo.netloc "notaurl" = "") ∧
    extract_urls envDemo "notaurl" 1 = .error (.fetch "404") :=
  ⟨⟨by decide, by decide⟩,
    no_seed_validation envDemo "notaurl" 1 "404" (by decide) (by decide)
      (by decide)⟩

/-- Claim C3, corrected: the claim fails as stated, again because the
`"redirect"` filter applies to the seed: a valid seed containing
`"redirect"` yields `[]`, not `[seed]`, at depth 0.  Amended: for every
seed URL without the substring `"redirect"` and every environment,
`extract_urls` at depth 0 returns exactly `[seed]` and fetches nothing
(the ghost fetch log stays empty, so the result is independent of any
page content). -/
theorem depth_zero_only_seed (env : Env) (url : String)
    (hred : substrMem "redirect" url = false) :
    extract_urls env url 0 = .ok [url] ∧
    extract_urls_run env url 0 = .ok ([url], ⟨[url], []⟩) := by
  have h := run_depth_nonpos env url 0 le_rfl hred
  constructor
  · unfold extract_urls
    rw [h]
  · exact h

/-- Counterexample to claim C3 as stated: a syntactically valid seed
containing `"redirect"` returns `[]` at depth 0, not the singleton of the
seed. -/
theorem depth_zero_counterexample :
    (envDemo.scheme "http://ex.com/redirect" = "http" ∧
      envDemo.netloc "http://ex.com/redirect" = "ex.com") ∧
    extract_urls envDemo "http://ex.com/redirect" 0 = .ok [] ∧
    extract_urls envDemo "http://ex.com/redirect" 0 ≠
      .ok ["http://ex.com/redirect"] :=
  ⟨⟨by decide, by decide⟩, by decide, by decide⟩

/-- Witness for the amended claim C3 on the concrete site (whose page at
the seed does have outbound links, which are ignored at depth 0). -/
theorem depth_zero_only_seed_witness :
    substrMem "redirect" "http://ex.com/a" = false ∧
    (extract_urls envDemo "http://ex.com/a" 0 = .ok ["http://ex.com/a"] ∧
      extract_urls_run envDemo "http://ex.com/a" 0 =
        .ok (["http://ex.com/a"], ⟨["http://ex.com/a"], []⟩)) :=
  ⟨by decide, depth_zero_only_seed envDemo "http://ex.com/a" (by decide)⟩

/-- Claim C4, confirmed: no URL appears more than once in a returned
list — the visited set, checked in the guard and extended exactly when a
URL is emitted, deduplicates across the whole traversal. -/
theorem extract_urls_nodup (env : Env) (url : String) (md : Int)
    (l : List String) (h : extract_urls env url md = .ok l) :
    l.Nodup := by
  unfold extract_urls at h
  split at h
  · simp at h
  · rename_i us st' hrun
    simp only [Except.ok.injEq] at h
    subst h
    unfold extract_urls_run at hrun
    exact (extract_urls_helper_ok env url md md.toNat url ⟨[], []⟩ 1
      us st' hrun).1

/-- Witness for claim C4 on the concrete site. -/
theorem extract_urls_nodup_witness :
    List.Nodup ["http://ex.com/a", "http://ex.com/b", "http://ex.com/c"] :=
  extract_urls_nodup envDemo "http://ex.com/a" 1
    ["http://ex.com/a", "http://ex.com/b", "http://ex.com/c"] (by decide)

/-- Claim C5, confirmed: every URL in a returned list has the same
network location as the seed (the guard rejects any URL whose network
location differs from that of `original_url`, which is the seed). -/
theorem extract_urls_same_netloc (env : Env) (url : String) (md : Int)
    (l : List String) (h : extract_urls env url md = .ok l) :
    ∀ u ∈ l, env.netloc u = env.netloc url := by
  unfold extract_urls at h
  split at h
  · simp at h
  · rename_i us st' hrun
    simp only [Except.ok.injEq] at h
    subst h
    unfold extract_urls_run at hrun
    intro u hu
    exact ((extract_urls_helper_ok env url md md.toNat url ⟨[], []⟩ 1
      us st' hrun).2.2.2.1 u hu).1

/-- Witness for claim C5 on the concrete site. -/
theorem extract_urls_same_netloc_witness :
    envDemo.netloc "http://ex.com/b" = envDemo.netloc "http://ex.com/a" :=
  extract_urls_same_netloc envDemo "http://ex.com/a" 1
    ["http://ex.com/a", "http://ex.com/b", "http://ex.com/c"] (by decide)
    "http://ex.com/b" (by decide)

/-- Claim C6, confirmed: the returned sequence is the first-discovered
pre-order depth-first sequence — `extract_urls` computes exactly the
spec-side traversal `extract_urls_spec`, in which a processed URL is
emitted immediately before the flattened contributions of its anchors,
one contribution per anchor in document order. -/
theorem extract_urls_preorder (env : Env) (url : String) (md : Int) :
    extract_urls env url md = extract_urls_spec env url md := by
  unfold extract_urls extract_urls_run extract_urls_spec
  rw [extract_urls_helper_eq_spec]

/-- Claim C7, confirmed: a URL containing the substring `"redirect"` is
never returned, never fetched and never visited. -/
theorem redirect_never_included (env : Env) (url : String) (md : Int)
    (l : List String) (st' : St)
    (h : extract_urls_run env url md = .ok (l, st')) :
    (∀ u ∈ l, substrMem "redirect" u = false) ∧
    (∀ u ∈ st'.fetched, substrMem "redirect" u = false) ∧
    (∀ u ∈ st'.visited, substrMem "redirect" u = false) := by
  unfold extract_urls_run at h
  obtain ⟨n, d, v, p, f⟩ :=
    extract_urls_helper_ok env url md md.toNat url ⟨[], []⟩ 1 l st' h
  refine ⟨fun u hu => (p u hu).2, ?_, ?_⟩
  · intro u hu
    rcases f u hu with h' | h'
    · simp at h'
    · exact (p u h').2
  · intro u hu
    rcases (v u).1 hu with h' | h'
    · exact (p u h').2
    · simp at h'

/-- Witness for claim C7 on the concrete site. -/
theorem redirect_never_included_witness :
    substrMem "redirect" "http://ex.com/b" = false ∧
    substrMem "redirect" "http://ex.com/a" = false :=
  ⟨(redirect_never_included envDemo "http://ex.com/a" 1
      ["http://ex.com/a", "http://ex.com/b", "http://ex.com/c"]
      ⟨["http://ex.com/c", "http://ex.com/b", "http://ex.com/a"],
        ["http://ex.com/a"]⟩ (by decide)).1 "http://ex.com/b" (by decide),
    (redirect_never_included envDemo "http://ex.com/a" 1
      ["http://ex.com/a", "http://ex.com/b", "http://ex.com/c"]
      ⟨["http://ex.com/c", "http://ex.com/b", "http://ex.com/a"],
        ["http://ex.com/a"]⟩ (by decide)).2.1 "http://ex.com/a" (by decide)⟩

/-- Claim C8, confirmed: a fetch error anywhere in the traversal aborts
the whole call.  First component: every fetch-error outcome of
`extract_urls` is the verbatim error of the fetch of some same-domain,
`"redirect"`-free URL — no retry, no wrapping, and, the result being an
error, no partial list is returned.  Second component: a failing fetch of
the seed makes the whole call fail with exactly that error. -/
theorem fetch_error_aborts (env : Env) (url : String) (md : Int) :
    (∀ e, extract_urls env url md = .error (.fetch e) →
      ∃ u, env.netloc u = env.netloc url ∧ substrMem "redirect" u = false ∧
        env.fetch u = .error e) ∧
    (∀ e, substrMem "redirect" url = false → 1 ≤ md →
      env.fetch url = .error e →
      extract_urls env url md = .error (.fetch e)) := by
  constructor
  · intro e h
    unfold extract_urls at h
    split at h
    · rename_i e' hrun
      simp only [Except.error.injEq] at h
      subst h
      unfold extract_urls_run at hrun
      exact extract_urls_helper_err env url md md.toNat url ⟨[], []⟩ 1 e hrun
    · simp at h
  · exact fun e hred hmd hf => seed_fetch_error env url md e hred hmd hf

/-- Witness for claim C8: the page at `"http://ex.com/x"` fails to fetch
in the concrete site; the whole call aborts with that error, and the
error outcome is traced back to a same-domain fetch failure. -/
theorem fetch_error_aborts_witness :
    extract_urls envDemo "http://ex.com/x" 1 = .error (.fetch "404") ∧
    ∃ u, envDemo.netloc u = envDemo.netloc "http://ex.com/x" ∧
      substrMem "redirect" u = false ∧ envDemo.fetch u = .error "404" :=
  ⟨(fetch_error_aborts envDemo "http://ex.com/x" 1).2 "404" (by decide)
      (by decide) (by decide),
    (fetch_error_aborts envDemo "http://ex.com/x" 1).1 "404"
      ((fetch_error_aborts envDemo "http://ex.com/x" 1).2 "404" (by decide)
        (by decide) (by decide))⟩

/-- Claim C9, confirmed in the embedding: the traversal terminates within
the `max_depth.toNat` recursion budget (the fuel marker is unreachable:
recursion depth is bounded by the depth counter, which rises by one per
hop and may not exceed `max_depth` when descending), and the visited set
grows by every processed URL.  In this embedding every fetch returns a
finite page, so the reachable link graph within the depth bound is
finite, which is the claim's hypothesis. -/
theorem traversal_terminates (env : Env) (url : String) (md : Int) :
    isFuelErr (extract_urls_run env url md) = false ∧
    (∀ l st', extract_urls_run env url md = .ok (l, st') →
      ∀ u ∈ l, u ∈ st'.visited) := by
  constructor
  · unfold extract_urls_run
    exact extract_urls_helper_fuel env url md md.toNat url ⟨[], []⟩ 1
      (by omega)
  · intro l st' h u hu
    unfold extract_urls_run at h
    obtain ⟨n, d, v, p, f⟩ :=
      extract_urls_helper_ok env url md md.toNat url ⟨[], []⟩ 1 l st' h
    exact (v u).2 (Or.inl hu)

/-- Witness for claim C9 on the concrete site. -/
theorem traversal_terminates_witness :
    isFuelErr (extract_urls_run envDemo "http://ex.com/a" 1) = false ∧
    "http://ex.com/b" ∈
      ["http://ex.com/c", "http://ex.com/b", "http://ex.com/a"] :=
  ⟨(traversal_terminates envDemo "http://ex.com/a" 1).1,
    (traversal_terminates envDemo "http://ex.com/a" 1).2
      ["http://ex.com/a", "http://ex.com/b", "http://ex.com/c"]
      ⟨["http://ex.com/c", "http://ex.com/b", "http://ex.com/a"],
        ["http://ex.com/a"]⟩ (by decide) "http://ex.com/b" (by decide)⟩

/-- Claim C10, confirmed: there is no bounds check on `max_depth`; for
every `max_depth ≤ 0` and every seed without the substring `"redirect"`,
no fetch is performed (empty ghost fetch log) and the result is exactly
the singleton of the seed, identical to the `max_depth = 0` outcome. -/
theorem nonpositive_depth_like_zero (env : Env) (url : String) (md : Int)
    (hmd : md ≤ 0) (hred : substrMem "redirect" url = false) :
    extract_urls_run env url md = .ok ([url], ⟨[url], []⟩) ∧
    extract_urls_run env url md = extract_urls_run env url 0 := by
  have h := run_depth_nonpos env url md hmd hred
  exact ⟨h, by rw [h, run_depth_nonpos env url 0 le_rfl hred]⟩

/-- Witness for claim C10 at the negative depth `-3`. -/
theorem nonpositive_depth_like_zero_witness :
    extract_urls_run envDemo "http://ex.com/a" (-3) =
      .ok (["http://ex.com/a"], ⟨["http://ex.com/a"], []⟩) ∧
    extract_urls_run envDemo "http://ex.com/a" (-3) =
      extract_urls_run envDemo "http://ex.com/a" 0 :=
  nonpositive_depth_like_zero envDemo "http://ex.com/a" (-3) (by decide)
    (by decide)

end Scrape
